import Mathlib

/-!
Verification of the cached cross-commit symbol resolver
(`src/agents/symbol_backend.py`, class `SymbolBackend`).

The Python code is shallowly embedded as executable Lean definitions:
* strings are `List Char` (the sources handled are ASCII C/C++ text, so
  Python's byte offsets and character offsets coincide);
* the regular expressions `RGX_MACRO` and `RGX_GLOBAL` are embedded as
  deterministic matchers that realize the backtracking engine's unique
  outcome on these particular patterns (derivations in the comments);
* tree-sitter parse trees are an inductive `TSNode` supplied by the
  environment (tree-sitter itself is an external library);
* subprocess calls (`git grep`, `git rev-parse`, `git cat-file`) are
  environment functions; `check_output` failures are `Except.error`;
* the SQLite warm store and the `lru_cache` hot memo are association
  lists threaded through an explicit state.
-/

/-- Python `\s` on ASCII text: space, tab, newline, carriage return,
form feed, vertical tab. -/
def isSpc (c : Char) : Bool :=
  c = ' ' || c = '\t' || c = '\n' || c = '\x0d' || c = '\x0c' || c = '\x0b'

/-- Python `\w` on ASCII text: letters, digits, underscore. -/
def isWordChar (c : Char) : Bool :=
  (('a' ≤ c && c ≤ 'z') || ('A' ≤ c && c ≤ 'Z') || ('0' ≤ c && c ≤ '9') || c = '_')

/-- Number of newline characters in a character list (Python
`src[:start].count "\n"` once the prefix is taken). -/
def countNL (l : List Char) : Nat :=
  (l.filter (fun c => c = '\n')).length

/-- Python `str.rstrip()`: drop trailing whitespace. -/
def rstrip (l : List Char) : List Char :=
  (l.reverse.dropWhile isSpc).reverse

/-- Python slice `src[s:e]` as a character slice. -/
def sliceStr (src : List Char) (s e : Nat) : List Char :=
  (src.drop s).take (e - s)

/-- In `re.M` mode `^` matches at position 0 and right after every
newline. -/
def isLineStart (src : List Char) (p : Nat) : Bool :=
  p = 0 || (match src.get? (p - 1) with
            | some c => c = '\n'
            | none => false)

example : isLineStart "a\nb".toList 2 = true := by decide
example : isLineStart "a\nb".toList 1 = false := by decide
example : countNL "a\nb\n".toList = 2 := by decide
example : rstrip "  x y \n".toList = "  x y".toList := by decide

/-- Index of the first non-whitespace character at or after `p`
(used for the greedy `\s*` / `\s+` steps: since the character that must
follow those steps is never itself whitespace, the backtracking engine's
outcome is exactly the maximal run). -/
def skipSpc (src : List Char) (p : Nat) : Nat :=
  p + ((src.drop p).takeWhile isSpc).length

/-- Index of the end of the current line (first newline at or after `p`,
or end of string): the greedy `[^\n]*` step. -/
def lineEnd (src : List Char) (p : Nat) : Nat :=
  p + ((src.drop p).takeWhile (fun c => ¬ (c = '\n'))).length

/-- Does the literal `lit` occur at position `p`? -/
def litAt (src lit : List Char) (p : Nat) : Bool :=
  (src.drop p).take lit.length = lit

/-- Is the character at index `i` a word character (`\w`)?  Out of
range counts as non-word, which is how the regex engine treats the
virtual characters before the start and after the end. -/
def isWordAt (src : List Char) (i : Nat) : Bool :=
  match src.get? i with
  | some c => isWordChar c
  | none => false

/-- Python `\b` at position `q`: exactly one of the two neighbouring
characters is a word character. -/
def boundaryAt (src : List Char) (q : Nat) : Bool :=
  (if q = 0 then false else isWordAt src (q - 1)) != isWordAt src q

/-- One anchored attempt of `RGX_MACRO name`, i.e.
`^\s*#\s*define\s+name\b[^\n]*` (`re.M`), at position `p` (the caller
guarantees `p` is a line start).  Returns the end of the match.
Each `\s*`/`\s+` is greedy, and since the token required right after
(`#`, `d` of `define`, the first character of an identifier `name`)
is never a whitespace character, no backtracking alternative exists:
the maximal whitespace run is the unique possibility.  Note that `\s`
matches newlines even in `re.M` mode, so these runs may span lines. -/
def matchDefineAt (src name : List Char) (p : Nat) : Option Nat :=
  let i := skipSpc src p
  if litAt src ['#'] i then
    let j := skipSpc src (i + 1)
    if litAt src "define".toList j then
      let k := j + 6
      let k2 := skipSpc src k
      if k < k2 && litAt src name k2 && boundaryAt src (k2 + name.length) then
        some (lineEnd src (k2 + name.length))
      else none
    else none
  else none

/-- Scan of `re.search`: positions are tried in increasing order; the
`^` anchor restricts matches to line starts.  Fuel is one more than the
number of remaining positions, so it never runs out. -/
def searchDefineFrom (src name : List Char) : Nat → Nat → Option (Nat × Nat)
  | 0, _ => none
  | fuel + 1, p =>
    if src.length < p then none
    else if isLineStart src p then
      match matchDefineAt src name p with
      | some e => some (p, e)
      | none => searchDefineFrom src name fuel (p + 1)
    else searchDefineFrom src name fuel (p + 1)

/-- Model of `re.search(RGX_MACRO(name), src)`: leftmost anchored match. -/
def searchDefine (src name : List Char) : Option (Nat × Nat) :=
  searchDefineFrom src name (src.length + 1) 0

/-- Output record of `SymbolBackend._build_rec` (return schema of the
backend: code slice, absolute path, 0-based line). -/
structure SymRec where
  code : String
  file : String
  line : Nat
deriving DecidableEq, Repr

/-- Model of `SymbolBackend._build_rec`: code is the right-stripped match slice,
file is `Path(repo, path)`, line is the newline count before the match
start. -/
def _build_rec (repo path : String) (src : List Char) (s e : Nat) : SymRec :=
  { code := String.mk (rstrip (sliceStr src s e))
  , file := repo ++ "/" ++ path
  , line := countNL (src.take s) }

/-- The macro branch of `SymbolBackend._extract_symbol`. -/
def extractDefine (repo path : String) (src name : List Char) : Option SymRec :=
  (searchDefine src name).map (fun pe => _build_rec repo path src pe.1 pe.2)

example : extractDefine "R" "a.h" "#define MAX_LEN 256".toList "MAX_LEN".toList =
    some { code := "#define MAX_LEN 256", file := "R/a.h", line := 0 } := by decide
example : extractDefine "R" "a.h" "x\n # define M 1 \nz".toList "M".toList =
    some { code := " # define M 1", file := "R/a.h", line := 1 } := by decide
example : extractDefine "R" "a.h" "#define MAX2 1".toList "MAX".toList = none := by decide

/-- The character class `[\w\s\*]` of `RGX_GLOBAL`. -/
def isClassChar (c : Char) : Bool :=
  isWordChar c || isSpc c || c = '*'

/-- Index of the first character at or after `p` outside `[\w\s\*]`. -/
def scanClassEnd (src : List Char) (p : Nat) : Nat :=
  p + ((src.drop p).takeWhile isClassChar).length

/-- One anchored attempt of `RGX_GLOBAL`, i.e.
`^\s*(?:extern\s+)?[\w\s\*]+\b(?P<name>\w+)\b\s*(?:[=;{])` (`re.M`),
at line-start position `p`.  Returns the match end and the captured
`name` group.  The backtracking outcome is forced: every character of
`\s*`, the optional `extern`, `[\w\s\*]+`, `name` and the final `\s*`
lies in `[\w\s\*]`, so the `[=;{]` character is necessarily the first
character after `p` outside that class (`c` below); the final `\s*` is
the maximal whitespace run ending at `c`; `name` is the maximal word
run ending where that whitespace starts (a shorter `name` would place
word characters on both sides of the preceding `\b`); and the part
before `name` must be nonempty (`[\w\s\*]+`).  `\b` before `name`
holds automatically because the maximal word run starts after a
non-word class character. -/
def matchGlobalAt (src : List Char) (p : Nat) : Option (Nat × List Char) :=
  let c := scanClassEnd src p
  match src.get? c with
  | none => none
  | some ch =>
    if ch = '=' || ch = ';' || ch = '{' then
      let b := p + ((sliceStr src p c).reverse.dropWhile isSpc).length
      if p < b && isWordAt src (b - 1) then
        let a := b - ((sliceStr src p b).reverse.takeWhile isWordChar).length
        if p < a then some (c + 1, sliceStr src a b) else none
      else none
    else none

/-- Model of `RGX_GLOBAL.finditer(src)`: all non-overlapping matches in order.
The scan position starts at 0; after a match the scan resumes at its
end (so a later line start swallowed by a multi-line match yields no
separate match, exactly as in Python).  Each step advances the
position, so fuel `src.length + 2` never runs out. -/
def findIterGlobalAux (src : List Char) : Nat → Nat → List (Nat × Nat × List Char)
  | 0, _ => []
  | fuel + 1, pos =>
    if src.length < pos then []
    else if isLineStart src pos then
      match matchGlobalAt src pos with
      | some (e, nm) => (pos, e, nm) :: findIterGlobalAux src fuel e
      | none => findIterGlobalAux src fuel (pos + 1)
    else findIterGlobalAux src fuel (pos + 1)

def findIterGlobal (src : List Char) : List (Nat × Nat × List Char) :=
  findIterGlobalAux src (src.length + 2) 0

/-- The `for m in finditer: if m.group("name") == name: return span`
loop of the global branch. -/
def firstWithName : List (Nat × Nat × List Char) → List Char → Option (Nat × Nat)
  | [], _ => none
  | (s, e, nm) :: ms, name => if nm = name then some (s, e) else firstWithName ms name

/-- The global branch of `SymbolBackend._extract_symbol`. -/
def extractGlobalVar (repo path : String) (src name : List Char) : Option SymRec :=
  (firstWithName (findIterGlobal src) name).map (fun se => _build_rec repo path src se.1 se.2)

example : extractGlobalVar "R" "a.c" "int x = 5;".toList "x".toList =
    some { code := "int x =", file := "R/a.c", line := 0 } := by decide
example : extractGlobalVar "R" "a.c" "unsigned long count;\nextern int y;".toList "y".toList =
    some { code := "extern int y;", file := "R/a.c", line := 1 } := by decide
example : extractGlobalVar "R" "a.c" "int buf;".toList "buf".toList =
    some { code := "int buf;", file := "R/a.c", line := 0 } := by decide
example : extractGlobalVar "R" "a.c" "foo(x);".toList "x".toList = none := by decide

/-- A tree-sitter concrete-syntax node: node type, 0-based start line
(`start_point[0]`), byte span, decoded text, children.  The sources
handled are ASCII, so byte and character offsets coincide. -/
inductive TSNode where
  | node (ty : String) (startLine startByte endByte : Nat) (text : String) (children : List TSNode)
deriving Repr

def TSNode.ty : TSNode → String
  | .node t _ _ _ _ _ => t

def TSNode.startLine : TSNode → Nat
  | .node _ sl _ _ _ _ => sl

def TSNode.startByte : TSNode → Nat
  | .node _ _ sb _ _ _ => sb

def TSNode.endByte : TSNode → Nat
  | .node _ _ _ eb _ _ => eb

def TSNode.text : TSNode → String
  | .node _ _ _ _ tx _ => tx

def TSNode.children : TSNode → List TSNode
  | .node _ _ _ _ _ cs => cs

/- `SymbolBackend._node_at_line`: the Python loop keeps a stack
(`queue.pop()` pops from the end, children are appended in order, and
only children with `start_point[0] <= line` are pushed), which is a
depth-first search visiting a node before its children and later
children before earlier ones.  It returns the first visited node whose
start line equals `line` — rendered here as that depth-first search,
with the ancestor chain (nearest first) carried along so that the
`n.parent` climb of the finders can be expressed.  The hint is an
`Int` because `_grep_candidates` computes `int(n) - 1`. -/
mutual
/-- Depth-first search step on one node (see the comment above). -/
def nodeDFS (line : Int) (anc : List TSNode) : TSNode → Option (TSNode × List TSNode)
  | .node t sl sb eb tx cs =>
    if (sl : Int) = line then some (.node t sl sb eb tx cs, anc)
    else nodeDFSRev line (.node t sl sb eb tx cs :: anc) cs
def nodeDFSRev (line : Int) (anc : List TSNode) : List TSNode → Option (TSNode × List TSNode)
  | [] => none
  | c :: cs =>
    match nodeDFSRev line anc cs with
    | some r => some r
    | none => if (c.startLine : Int) ≤ line then nodeDFS line anc c else none
end

def _node_at_line (root : TSNode) (line : Int) : Option (TSNode × List TSNode) :=
  nodeDFS line [] root

mutual
/-- Preorder list of a node and all its descendants: the model of
iterating `node.walk()` in `_find_typedef`. -/
def walkAll : TSNode → List TSNode
  | .node t sl sb eb tx cs => .node t sl sb eb tx cs :: walkForest cs
def walkForest : List TSNode → List TSNode
  | [] => []
  | c :: cs => walkAll c ++ walkForest cs
end

/-- The inner test of `_find_function`: some `function_declarator`
child has an `identifier` child whose text is `ident`. -/
def funcDeclHit (n : TSNode) (ident : String) : Bool :=
  n.children.any (fun c =>
    c.ty = "function_declarator" &&
    c.children.any (fun leaf => leaf.ty = "identifier" && leaf.text = ident))

/-- The `while n: ... n = n.parent` climb of `_find_function` over the
seed node and its ancestors. -/
def climbFunction (ident : String) : List TSNode → Option TSNode
  | [] => none
  | n :: up =>
    if n.ty = "function_definition" && funcDeclHit n ident then some n
    else climbFunction ident up

def _find_function (root : TSNode) (ident : String) (lineHint : Int) : Option TSNode :=
  match _node_at_line root lineHint with
  | none => none
  | some (n, anc) => climbFunction ident (n :: anc)

/-- The inner test of `_find_typedef`: the first
`init_declarator_list` child (if any) has, under one of its children,
a `type_identifier`/`identifier` leaf with text `ident`. -/
def typedefHit (n : TSNode) (ident : String) : Bool :=
  match n.children.find? (fun c => c.ty = "init_declarator_list") with
  | none => false
  | some dl =>
    dl.children.any (fun d =>
      (walkAll d).any (fun leaf =>
        (leaf.ty = "type_identifier" || leaf.ty = "identifier") && leaf.text = ident))

def climbTypedef (ident : String) : List TSNode → Option TSNode
  | [] => none
  | n :: up =>
    if n.ty = "type_definition" && typedefHit n ident then some n
    else climbTypedef ident up

def _find_typedef (root : TSNode) (ident : String) (lineHint : Int) : Option TSNode :=
  match _node_at_line root lineHint with
  | none => none
  | some (n, anc) => climbTypedef ident (n :: anc)

/-- The inner test of `_find_struct` / `_find_enum`: the first
`type_identifier` child exists and has text `ident`. -/
def firstTypeIdHit (n : TSNode) (ident : String) : Bool :=
  match n.children.filter (fun c => c.ty = "type_identifier") with
  | [] => false
  | c :: _ => c.text = ident

def climbStruct (ident : String) : List TSNode → Option TSNode
  | [] => none
  | n :: up =>
    if n.ty = "struct_specifier" && firstTypeIdHit n ident then some n
    else climbStruct ident up

def _find_struct (root : TSNode) (ident : String) (lineHint : Int) : Option TSNode :=
  match _node_at_line root lineHint with
  | none => none
  | some (n, anc) => climbStruct ident (n :: anc)

def climbEnum (ident : String) : List TSNode → Option TSNode
  | [] => none
  | n :: up =>
    if n.ty = "enum_specifier" && firstTypeIdHit n ident then some n
    else climbEnum ident up

def _find_enum (root : TSNode) (ident : String) (lineHint : Int) : Option TSNode :=
  match _node_at_line root lineHint with
  | none => none
  | some (n, anc) => climbEnum ident (n :: anc)

/-- The warm-store cache key `(repo, sha, kind, name)`
(`PRIMARY KEY(repo, sha, kind, name)` of the `sym` table). -/
abbrev SKey := String × String × String × String

/-- First-match association-list lookup (one row per primary key). -/
def assocFind {α : Type} : List (SKey × α) → SKey → Option α
  | [], _ => none
  | (k, v) :: rest, key => if k = key then some v else assocFind rest key

/-- The mutable pieces of a `SymbolBackend`: the SQLite warm store
(`sym` table rows), the `lru_cache` memo wrapped around `_warm_get`
(the hot tier; the memo also records misses as `none` values — the
recency bound of 20 000 entries is far above every state considered
here, so eviction is not modelled), and a counter of
`_extract_symbol` invocations used to state "extraction work done"
properties. -/
structure CState where
  warm : List (SKey × SymRec)
  hot : List (SKey × Option SymRec)
  extractions : Nat
deriving DecidableEq, Repr

/-- The empty backend state (fresh database, cold memo). -/
def st0 : CState := { warm := [], hot := [], extractions := 0 }

/-- Model of `SymbolBackend._warm_get`: SELECT by primary key. -/
def _warm_get (st : CState) (k : SKey) : Option SymRec :=
  assocFind st.warm k

/-- Model of `SymbolBackend._warm_put`: `REPLACE INTO sym` — insert-or-replace
of the single row at `k`. -/
def _warm_put (w : List (SKey × SymRec)) (k : SKey) (r : SymRec) : List (SKey × SymRec) :=
  (k, r) :: w.filter (fun p => ¬ (p.1 = k))

/-- Model of `self._hot_get(...)`: the `lru_cache` read-through memo over
`_warm_get` — return the memoised value if present, otherwise consult
the warm store and record the answer (hits and misses alike). -/
def hotGet (st : CState) (k : SKey) : Option SymRec × CState :=
  match assocFind st.hot k with
  | some v => (v, st)
  | none =>
    let v := _warm_get st k
    (v, { st with hot := (k, v) :: st.hot })

/-- The set `SymbolBackend._KINDS`. -/
def _KINDS : List String := ["function", "macro", "global", "typedef", "struct", "enum"]

/-- The external world of one backend: the repository identity
(`self.repo`), the two `git grep` invocations of `_grep_candidates`
(stdout of the strict kind-specific search, stripped and split into
lines, and stdout lines of the fallback `-l` name search), blob-hash
resolution (`_blob_sha`, i.e. `git rev-parse commit:path`), raw byte
fetch (`_git_show`, i.e. `git cat-file -p sha`) and the tree-sitter
parser (the flag tells C++ from C, chosen from the file suffix).
`check_output` raising `CalledProcessError` is `Except.error ()`;
these functions are pure because the backing commit is immutable. -/
structure GitEnv where
  repo : String
  grepStrictLines : String → String → List String
  grepNameLines : String → List String
  blobSha : String → Except Unit String
  catFile : String → Except Unit String
  parse : Bool → String → TSNode

/-- Python `str.split(sep, maxsplit)` restricted to `sep = ":"`:
split at the first `m` colons. -/
def splitColonN : Nat → List Char → List (List Char)
  | 0, l => [l]
  | m + 1, l =>
    match l.span (fun c => ¬ (c = ':')) with
    | (a, []) => [a]
    | (a, _ :: b) => a :: splitColonN m b

example : splitColonN 3 "c:f.c:12:int x;".toList =
    ["c".toList, "f.c".toList, "12".toList, "int x;".toList] := by decide
example : splitColonN 1 "c:f.c:12".toList = ["c".toList, "f.c:12".toList] := by decide

/-- Python `int(s)` on the line-number field of a grep hit: optional
surrounding whitespace and sign, then a nonempty digit run; anything
else raises `ValueError` (`none` here). -/
def parseIntPy (l : List Char) : Option Int :=
  match (l.dropWhile isSpc).reverse.dropWhile isSpc with
  | [] => none
  | c :: rest =>
    let core := (c :: rest).reverse
    let signed : Bool × List Char :=
      match core with
      | '-' :: ds => (true, ds)
      | '+' :: ds => (false, ds)
      | ds => (false, ds)
    match signed with
    | (neg, ds) =>
      if ds ≠ [] ∧ ds.all (fun d => '0' ≤ d ∧ d ≤ '9') then
        let v : Int := ds.foldl (fun acc d => acc * 10 + ((d.toNat : Int) - 48)) 0
        some (if neg then -v else v)
      else none

example : parseIntPy "42".toList = some 42 := by decide
example : parseIntPy "x2".toList = none := by decide

/-- Parsing of the strict grep hits in `_grep_candidates`:
`_, f, n, _ = line.split(":", 3)` followed by `int(n) - 1`.  A line
with fewer than three colons or a non-numeric line field raises
(unpacking `ValueError` / `int` `ValueError`), which propagates. -/
def parseStrictLines : List String → Except Unit (List (String × Int))
  | [] => .ok []
  | line :: rest =>
    match splitColonN 3 line.toList with
    | [_, f, n, _] =>
      match parseIntPy n with
      | some i =>
        match parseStrictLines rest with
        | .ok t => .ok ((String.mk f, i - 1) :: t)
        | .error e => .error e
      | none => .error ()
    | _ => .error ()

/-- The fallback mapping `f.split(":", 1)[1] if ":" in f else f` with
`line_hint = 0`. -/
def fallbackCandidate (f : String) : String × Int :=
  (if f.toList.contains ':' then
     String.mk ((splitColonN 1 f.toList).getD 1 [])
   else f, (0 : Int))

/-- Model of `SymbolBackend._grep_candidates`: parse the strict hits if the
strict search printed anything, otherwise run the broad name search
and return its files with `line_hint = 0`. -/
def _grep_candidates (env : GitEnv) (name kind : String) : Except Unit (List (String × Int)) :=
  let lines := env.grepStrictLines name kind
  if lines.isEmpty then
    .ok ((env.grepNameLines name).map fallbackCandidate)
  else
    parseStrictLines lines

/-- Suffix test used to pick the C++ parser. -/
def isCppPath (path : String) : Bool :=
  [".cpp", ".cc", ".cxx", ".hpp", ".hh", ".hxx"].any
    (fun s => s.toList.isSuffixOf path.toList)

/-- Model of `SymbolBackend._extract_symbol`: regex extraction for macro and
global, tree-sitter extraction for the four structural kinds.  The
final `none` branch is unreachable from `_lookup` (which filters on
`_KINDS` first); Python would raise `KeyError` there. -/
def _extract_symbol (env : GitEnv) (src : String) (path name kind : String)
    (lineHint : Int) : Option SymRec :=
  if kind = "macro" then extractDefine env.repo path src.toList name.toList
  else if kind = "global" then extractGlobalVar env.repo path src.toList name.toList
  else
    let root := env.parse (isCppPath path) src
    let nodeOpt :=
      if kind = "function" then _find_function root name lineHint
      else if kind = "typedef" then _find_typedef root name lineHint
      else if kind = "struct" then _find_struct root name lineHint
      else if kind = "enum" then _find_enum root name lineHint
      else none
    nodeOpt.map (fun n =>
      { code := String.mk (sliceStr src.toList n.startByte n.endByte)
      , file := env.repo ++ "/" ++ path
      , line := n.startLine })

/-- The candidate loop of `SymbolBackend._lookup`.  Per candidate:
resolve the blob hash (a raised `CalledProcessError` propagates —
there is no try/except in `_lookup`), consult the hot/warm cache,
on a miss fetch the bytes (again propagating on failure) and extract;
a verified record is written to the warm store, the hot memo is
cleared (`cache_clear`) and the record returned; a failed extraction
moves on to the next candidate. -/
def lookupGo (env : GitEnv) (name kind : String) :
    List (String × Int) → CState → Except Unit (Option SymRec) × CState
  | [], st => (.ok none, st)
  | (f, ln) :: rest, st =>
    match env.blobSha f with
    | .error e => (.error e, st)
    | .ok sha =>
      match hotGet st (env.repo, sha, kind, name) with
      | (some r, st1) => (.ok (some r), st1)
      | (none, st1) =>
        match env.catFile sha with
        | .error e => (.error e, st1)
        | .ok source =>
          let st2 := { st1 with extractions := st1.extractions + 1 }
          match _extract_symbol env source f name kind ln with
          | some r =>
            (.ok (some r),
             { st2 with warm := _warm_put st2.warm (env.repo, sha, kind, name) r, hot := [] })
          | none => lookupGo env name kind rest st2

/-- Model of `SymbolBackend._lookup(name, kind)`: unsupported kinds short-circuit
to `None`; otherwise the candidate list is computed and the loop run.
`.ok none` is the NOT_FOUND outcome; `.error` is an uncaught exception
escaping `_lookup`. -/
def _lookup (env : GitEnv) (st : CState) (name kind : String) :
    Except Unit (Option SymRec) × CState :=
  if _KINDS.contains kind then
    match _grep_candidates env name kind with
    | .error e => (.error e, st)
    | .ok cands => lookupGo env name kind cands st
  else (.ok none, st)

deriving instance DecidableEq for Except

/-- Consistency of the hot memo with the warm store: every memoised
answer equals what `_warm_get` would answer now.  It holds for a cold
memo, and `_lookup` preserves it (the memo is cleared whenever the
warm store is written); it can only be broken by an external writer to
the shared database file. -/
def hotConsistent (st : CState) : Prop :=
  ∀ k v, assocFind st.hot k = some v → v = _warm_get st k

theorem hotConsistent_st0 : hotConsistent st0 := by
  intro k v h
  simp [st0, assocFind] at h

theorem hotGet_fst (st : CState) (k : SKey) (hc : hotConsistent st) :
    (hotGet st k).1 = _warm_get st k := by
  unfold hotGet
  cases h : assocFind st.hot k with
  | none => simp
  | some v => simpa using hc k v h

theorem hotGet_warm (st : CState) (k : SKey) : (hotGet st k).2.warm = st.warm := by
  unfold hotGet
  cases assocFind st.hot k <;> simp

theorem hotGet_extr (st : CState) (k : SKey) :
    (hotGet st k).2.extractions = st.extractions := by
  unfold hotGet
  cases assocFind st.hot k <;> simp

theorem hotGet_hc (st : CState) (k : SKey) (hc : hotConsistent st) :
    hotConsistent (hotGet st k).2 := by
  unfold hotGet
  cases h : assocFind st.hot k with
  | none =>
    intro k2 v2 h2
    simp only [assocFind] at h2
    by_cases hk : k = k2
    · subst hk
      simp at h2
      exact h2.symm
    · rw [if_neg hk] at h2
      exact hc k2 v2 h2
  | some v => exact hc

theorem hotGet_hot_mono (st : CState) (k k2 : SKey) (v : Option SymRec)
    (h : assocFind st.hot k2 = some v) : assocFind (hotGet st k).2.hot k2 = some v := by
  unfold hotGet
  cases hm : assocFind st.hot k with
  | some w => simpa using h
  | none =>
    simp only [assocFind]
    by_cases hk : k = k2
    · subst hk
      rw [hm] at h
      exact absurd h (by simp)
    · rw [if_neg hk]
      exact h

theorem assocFind_warm_put_self {w : List (SKey × SymRec)} {k : SKey} {r : SymRec} :
    assocFind (_warm_put w k r) k = some r := by
  simp [_warm_put, assocFind]

theorem assocFind_filter_ne {w : List (SKey × SymRec)} {k k2 : SKey} (hk : ¬ k2 = k) :
    assocFind (w.filter (fun p => ¬ (p.1 = k))) k2 = assocFind w k2 := by
  induction w with
  | nil => rfl
  | cons p rest ih =>
    by_cases hp : p.1 = k
    · have hcond : ¬ ((fun (q : SKey × SymRec) => decide (¬ (q.1 = k))) p = true) := by
        simp [hp]
      rw [List.filter_cons, if_neg hcond, ih]
      have : assocFind (p :: rest) k2 = assocFind rest k2 := by
        simp only [assocFind]
        rw [if_neg (fun he => hk (he.symm.trans hp))]
      rw [this]
    · have hcond : ((fun (q : SKey × SymRec) => decide (¬ (q.1 = k))) p = true) := by
        simp [hp]
      rw [List.filter_cons, if_pos hcond]
      simp only [assocFind]
      by_cases hpk : p.1 = k2
      · rw [if_pos hpk, if_pos hpk]
      · rw [if_neg hpk, if_neg hpk]
        exact ih

theorem assocFind_warm_put_ne {w : List (SKey × SymRec)} {k k2 : SKey} {r : SymRec}
    (hk : ¬ k2 = k) : assocFind (_warm_put w k r) k2 = assocFind w k2 := by
  simp only [_warm_put, assocFind]
  rw [if_neg (fun he => hk he.symm)]
  exact assocFind_filter_ne hk

/-- The candidate loop keeps the hot memo consistent with the warm
store: reads only memoise current warm answers, and the single write
is followed by `cache_clear`. -/
theorem lookupGo_hc (env : GitEnv) (name kind : String) (cands : List (String × Int))
    (st : CState) (hc : hotConsistent st) :
    hotConsistent (lookupGo env name kind cands st).2 := by
  induction cands generalizing st with
  | nil => simpa [lookupGo] using hc
  | cons c rest ih =>
    obtain ⟨f, ln⟩ := c
    cases hb : env.blobSha f with
    | error e => simp only [lookupGo, hb]; exact hc
    | ok sha =>
      rcases hg : hotGet st (env.repo, sha, kind, name) with ⟨cached, st1⟩
      have hc1 : hotConsistent st1 := by
        have := hotGet_hc st (env.repo, sha, kind, name) hc
        rwa [hg] at this
      cases cached with
      | some r => simp only [lookupGo, hb, hg]; exact hc1
      | none =>
        cases hf : env.catFile sha with
        | error e => simp only [lookupGo, hb, hg, hf]; exact hc1
        | ok source =>
          cases hx : _extract_symbol env source f name kind ln with
          | some r =>
            simp only [lookupGo, hb, hg, hf, hx]
            intro k2 v2 h2
            simp [assocFind] at h2
          | none =>
            simp only [lookupGo, hb, hg, hf, hx]
            exact ih _ (fun k2 v2 h2 => hc1 k2 v2 h2)

/-- A candidate loop that does not return a record leaves the warm
store untouched and only extends (never clears) the hot memo. -/
theorem lookupGo_stable (env : GitEnv) (name kind : String) (cands : List (String × Int))
    (st : CState) (res : Except Unit (Option SymRec)) (st2 : CState)
    (h : lookupGo env name kind cands st = (res, st2))
    (hne : ∀ r, ¬ res = .ok (some r)) :
    st2.warm = st.warm ∧
    (∀ k v, assocFind st.hot k = some v → assocFind st2.hot k = some v) := by
  induction cands generalizing st with
  | nil =>
    simp only [lookupGo] at h
    injection h with h1 h2
    subst h2
    exact ⟨rfl, fun k v hv => hv⟩
  | cons c rest ih =>
    obtain ⟨f, ln⟩ := c
    cases hb : env.blobSha f with
    | error e =>
      simp only [lookupGo, hb] at h
      injection h with h1 h2
      subst h2
      exact ⟨rfl, fun k v hv => hv⟩
    | ok sha =>
      rcases hg : hotGet st (env.repo, sha, kind, name) with ⟨cached, stA⟩
      have hwA : stA.warm = st.warm := by
        have := hotGet_warm st (env.repo, sha, kind, name)
        rwa [hg] at this
      have hmonoA : ∀ k v, assocFind st.hot k = some v → assocFind stA.hot k = some v := by
        intro k v hv
        have := hotGet_hot_mono st (env.repo, sha, kind, name) k v hv
        rwa [hg] at this
      cases cached with
      | some r =>
        simp only [lookupGo, hb, hg] at h
        injection h with h1 h2
        exact absurd h1.symm (hne r)
      | none =>
        cases hf : env.catFile sha with
        | error e =>
          simp only [lookupGo, hb, hg, hf] at h
          injection h with h1 h2
          subst h2
          exact ⟨hwA, hmonoA⟩
        | ok source =>
          cases hx : _extract_symbol env source f name kind ln with
          | some r =>
            simp only [lookupGo, hb, hg, hf, hx] at h
            injection h with h1 h2
            exact absurd h1.symm (hne r)
          | none =>
            simp only [lookupGo, hb, hg, hf, hx] at h
            obtain ⟨hw2, hmono2⟩ := ih _ h
            refine ⟨by rw [hw2]; exact hwA, fun k v hv => hmono2 k v (hmonoA k v hv)⟩

/-- A successful candidate loop changes the warm store at exactly one
key, which afterwards holds the returned record (either it already did
— a cache hit — or the loop wrote it). -/
theorem lookupGo_success (env : GitEnv) (name kind : String) (cands : List (String × Int))
    (st : CState) (r : SymRec) (st2 : CState) (hc : hotConsistent st)
    (h : lookupGo env name kind cands st = (.ok (some r), st2)) :
    ∃ k, assocFind st2.warm k = some r ∧
      ∀ k2, ¬ k2 = k → assocFind st2.warm k2 = assocFind st.warm k2 := by
  induction cands generalizing st with
  | nil =>
    simp only [lookupGo] at h
    injection h with h1 h2
    injection h1 with h1
    cases h1
  | cons c rest ih =>
    obtain ⟨f, ln⟩ := c
    cases hb : env.blobSha f with
    | error e =>
      simp only [lookupGo, hb] at h
      injection h with h1 h2
      cases h1
    | ok sha =>
      rcases hg : hotGet st (env.repo, sha, kind, name) with ⟨cached, stA⟩
      have hwA : stA.warm = st.warm := by
        have := hotGet_warm st (env.repo, sha, kind, name)
        rwa [hg] at this
      have hcA : hotConsistent stA := by
        have := hotGet_hc st (env.repo, sha, kind, name) hc
        rwa [hg] at this
      have hfst : cached = _warm_get st (env.repo, sha, kind, name) := by
        have := hotGet_fst st (env.repo, sha, kind, name) hc
        rwa [hg] at this
      cases cached with
      | some r0 =>
        simp only [lookupGo, hb, hg] at h
        injection h with h1 h2
        injection h1 with h1
        injection h1 with h1
        subst h1
        subst h2
        refine ⟨(env.repo, sha, kind, name), ?_, fun k2 _ => by rw [hwA]⟩
        rw [hwA]
        exact hfst.symm
      | none =>
        cases hf : env.catFile sha with
        | error e =>
          simp only [lookupGo, hb, hg, hf] at h
          injection h with h1 h2
          cases h1
        | ok source =>
          cases hx : _extract_symbol env source f name kind ln with
          | some r0 =>
            simp only [lookupGo, hb, hg, hf, hx] at h
            injection h with h1 h2
            injection h1 with h1
            injection h1 with h1
            subst h1
            subst h2
            refine ⟨(env.repo, sha, kind, name), ?_, ?_⟩
            · simpa using assocFind_warm_put_self
            · intro k2 hk2
              have := assocFind_warm_put_ne (w := stA.warm)
                (k := (env.repo, sha, kind, name)) (r := r0) hk2
              simpa [hwA] using this
          | none =>
            simp only [lookupGo, hb, hg, hf, hx] at h
            have hcA1 : hotConsistent { stA with extractions := stA.extractions + 1 } :=
              fun k2 v2 h2 => hcA k2 v2 h2
            obtain ⟨k, hk1, hk2⟩ := ih _ hcA1 h
            exact ⟨k, hk1, fun k2 hne => by rw [hk2 k2 hne]; exact congrArg (assocFind · k2) hwA⟩

/-- Simulation: two consistent states with the same warm store drive
the candidate loop to the same result, the same final warm store and
the same amount of extraction work (stated additively). -/
theorem lookupGo_sim (env : GitEnv) (name kind : String) (cands : List (String × Int))
    (st stB : CState) (hc : hotConsistent st) (hcB : hotConsistent stB)
    (hw : stB.warm = st.warm) :
    (lookupGo env name kind cands stB).1 = (lookupGo env name kind cands st).1 ∧
    (lookupGo env name kind cands stB).2.warm = (lookupGo env name kind cands st).2.warm ∧
    (lookupGo env name kind cands stB).2.extractions + st.extractions
      = (lookupGo env name kind cands st).2.extractions + stB.extractions := by
  induction cands generalizing st stB with
  | nil =>
    refine ⟨?_, ?_, ?_⟩ <;> simp only [lookupGo]
    · rw [hw]
    · exact Nat.add_comm _ _
  | cons c rest ih =>
    obtain ⟨f, ln⟩ := c
    cases hb : env.blobSha f with
    | error e =>
      refine ⟨?_, ?_, ?_⟩ <;> simp only [lookupGo, hb]
      · rw [hw]
      · exact Nat.add_comm _ _
    | ok sha =>
      rcases hg : hotGet st (env.repo, sha, kind, name) with ⟨cached, stA⟩
      rcases hgB : hotGet stB (env.repo, sha, kind, name) with ⟨cachedB, stAB⟩
      have hfst : cached = _warm_get st (env.repo, sha, kind, name) := by
        have := hotGet_fst st (env.repo, sha, kind, name) hc
        rwa [hg] at this
      have hfstB : cachedB = _warm_get stB (env.repo, sha, kind, name) := by
        have := hotGet_fst stB (env.repo, sha, kind, name) hcB
        rwa [hgB] at this
      have hsame : cachedB = cached := by
        rw [hfst, hfstB, _warm_get, _warm_get, hw]
      have hwA : stA.warm = st.warm := by
        have := hotGet_warm st (env.repo, sha, kind, name); rwa [hg] at this
      have hwAB : stAB.warm = stB.warm := by
        have := hotGet_warm stB (env.repo, sha, kind, name); rwa [hgB] at this
      have heA : stA.extractions = st.extractions := by
        have := hotGet_extr st (env.repo, sha, kind, name); rwa [hg] at this
      have heAB : stAB.extractions = stB.extractions := by
        have := hotGet_extr stB (env.repo, sha, kind, name); rwa [hgB] at this
      have hcA : hotConsistent stA := by
        have := hotGet_hc st (env.repo, sha, kind, name) hc; rwa [hg] at this
      have hcAB : hotConsistent stAB := by
        have := hotGet_hc stB (env.repo, sha, kind, name) hcB; rwa [hgB] at this
      subst hsame
      cases cachedB with
      | some r =>
        refine ⟨?_, ?_, ?_⟩ <;> simp only [lookupGo, hb, hg, hgB]
        · rw [hwA, hwAB, hw]
        · rw [heA, heAB]
          exact Nat.add_comm _ _
      | none =>
        cases hf : env.catFile sha with
        | error e =>
          refine ⟨?_, ?_, ?_⟩ <;> simp only [lookupGo, hb, hg, hgB, hf]
          · rw [hwA, hwAB, hw]
          · rw [heA, heAB]
            exact Nat.add_comm _ _
        | ok source =>
          cases hx : _extract_symbol env source f name kind ln with
          | some r =>
            refine ⟨?_, ?_, ?_⟩ <;> simp only [lookupGo, hb, hg, hgB, hf, hx]
            · show _warm_put stAB.warm (env.repo, sha, kind, name) r
                = _warm_put stA.warm (env.repo, sha, kind, name) r
              rw [hwA, hwAB, hw]
            · show stAB.extractions + 1 + st.extractions
                = stA.extractions + 1 + stB.extractions
              rw [heA, heAB]
              omega
          | none =>
            have h1 : hotConsistent { stA with extractions := stA.extractions + 1 } :=
              fun k2 v2 h2 => hcA k2 v2 h2
            have h2 : hotConsistent { stAB with extractions := stAB.extractions + 1 } :=
              fun k2 v2 h2 => hcAB k2 v2 h2
            have h3 : ({ stAB with extractions := stAB.extractions + 1 } : CState).warm
                = ({ stA with extractions := stA.extractions + 1 } : CState).warm := by
              show stAB.warm = stA.warm
              rw [hwA, hwAB, hw]
            obtain ⟨ha, hb2, hcx⟩ := ih _ _ h1 h2 h3
            refine ⟨?_, ?_, ?_⟩ <;> simp only [lookupGo, hb, hg, hgB, hf, hx]
            · exact ha
            · exact hb2
            · simp only at hcx
              omega

/-- Idempotence of the candidate loop: rerunning it from the state the
first run left behind yields the same answer. -/
theorem lookupGo_idem (env : GitEnv) (name kind : String) (cands : List (String × Int))
    (st : CState) (res : Except Unit (Option SymRec)) (st1 : CState)
    (hc : hotConsistent st) (h : lookupGo env name kind cands st = (res, st1)) :
    (lookupGo env name kind cands st1).1 = res := by
  induction cands generalizing st with
  | nil =>
    simp only [lookupGo] at h
    have h1 : (Except.ok none : Except Unit (Option SymRec)) = res := congrArg Prod.fst h
    have h2 : st = st1 := congrArg Prod.snd h
    subst h2
    simp only [lookupGo]
    exact h1
  | cons c rest ih =>
    obtain ⟨f, ln⟩ := c
    cases hb : env.blobSha f with
    | error e =>
      simp only [lookupGo, hb] at h
      have h1 : (Except.error e : Except Unit (Option SymRec)) = res := congrArg Prod.fst h
      have h2 : st = st1 := congrArg Prod.snd h
      subst h2
      simp only [lookupGo, hb]
      exact h1
    | ok sha =>
      rcases hg : hotGet st (env.repo, sha, kind, name) with ⟨cached, stA⟩
      have hfst : cached = _warm_get st (env.repo, sha, kind, name) := by
        have := hotGet_fst st (env.repo, sha, kind, name) hc
        rwa [hg] at this
      have hwA : stA.warm = st.warm := by
        have := hotGet_warm st (env.repo, sha, kind, name); rwa [hg] at this
      have hcA : hotConsistent stA := by
        have := hotGet_hc st (env.repo, sha, kind, name) hc; rwa [hg] at this
      cases cached with
      | some r =>
        simp only [lookupGo, hb, hg] at h
        have h1 : (Except.ok (some r) : Except Unit (Option SymRec)) = res := congrArg Prod.fst h
        have h2 : stA = st1 := congrArg Prod.snd h
        subst h2
        have hv1 : _warm_get stA (env.repo, sha, kind, name) = some r := by
          show assocFind stA.warm (env.repo, sha, kind, name) = some r
          rw [hwA]
          exact hfst.symm
        rcases hgB : hotGet stA (env.repo, sha, kind, name) with ⟨cachedB, stB⟩
        have hcbB : cachedB = _warm_get stA (env.repo, sha, kind, name) := by
          have := hotGet_fst stA (env.repo, sha, kind, name) hcA
          rwa [hgB] at this
        rw [hv1] at hcbB
        subst hcbB
        simp only [lookupGo, hb, hgB]
        exact h1
      | none =>
        have hv0 : assocFind st.warm (env.repo, sha, kind, name) = none := hfst.symm
        cases hf : env.catFile sha with
        | error e =>
          simp only [lookupGo, hb, hg, hf] at h
          have h1 : (Except.error e : Except Unit (Option SymRec)) = res := congrArg Prod.fst h
          have h2 : stA = st1 := congrArg Prod.snd h
          subst h2
          rcases hgB : hotGet stA (env.repo, sha, kind, name) with ⟨cachedB, stB⟩
          have hcbB : cachedB = _warm_get stA (env.repo, sha, kind, name) := by
            have := hotGet_fst stA (env.repo, sha, kind, name) hcA
            rwa [hgB] at this
          have hnB : cachedB = none := by
            rw [hcbB]
            show assocFind stA.warm (env.repo, sha, kind, name) = none
            rw [hwA]
            exact hv0
          subst hnB
          simp only [lookupGo, hb, hgB, hf]
          exact h1
        | ok source =>
          cases hx : _extract_symbol env source f name kind ln with
          | some r =>
            simp only [lookupGo, hb, hg, hf, hx] at h
            have h1 : (Except.ok (some r) : Except Unit (Option SymRec)) = res :=
              congrArg Prod.fst h
            have h2 : ({ warm := _warm_put stA.warm (env.repo, sha, kind, name) r, hot := [], extractions := stA.extractions + 1 } : CState) = st1 :=
              congrArg Prod.snd h
            subst h2
            have hc1 : hotConsistent ({ warm := _warm_put stA.warm (env.repo, sha, kind, name) r, hot := [], extractions := stA.extractions + 1 } : CState) := by
              intro k2 v2 h2
              simp [assocFind] at h2
            rcases hgB : hotGet ({ warm := _warm_put stA.warm (env.repo, sha, kind, name) r, hot := [], extractions := stA.extractions + 1 } : CState)
                (env.repo, sha, kind, name) with ⟨cachedB, stB⟩
            have hcbB : cachedB = some r := by
              have hq := hotGet_fst ({ warm := _warm_put stA.warm (env.repo, sha, kind, name) r, hot := [], extractions := stA.extractions + 1 } : CState)
                (env.repo, sha, kind, name) hc1
              rw [hgB] at hq
              simp only at hq
              rw [hq]
              show assocFind (_warm_put stA.warm (env.repo, sha, kind, name) r)
                (env.repo, sha, kind, name) = some r
              exact assocFind_warm_put_self
            subst hcbB
            simp only [lookupGo, hb, hgB]
            exact h1
          | none =>
            simp only [lookupGo, hb, hg, hf, hx] at h
            have hcA1 : hotConsistent ({ warm := stA.warm, hot := stA.hot, extractions := stA.extractions + 1 } : CState) :=
              fun k2 v2 h2 => hcA k2 v2 h2
            have hIH := ih _ hcA1 h
            have hc1 : hotConsistent st1 := by
              have := lookupGo_hc env name kind rest
                { warm := stA.warm, hot := stA.hot, extractions := stA.extractions + 1 } hcA1
              rwa [h] at this
            rcases hgB : hotGet st1 (env.repo, sha, kind, name) with ⟨cachedB, stB⟩
            have hcb : cachedB = assocFind st1.warm (env.repo, sha, kind, name) := by
              have := hotGet_fst st1 (env.repo, sha, kind, name) hc1
              rwa [hgB] at this
            have hwB : stB.warm = st1.warm := by
              have := hotGet_warm st1 (env.repo, sha, kind, name); rwa [hgB] at this
            have hcB : hotConsistent stB := by
              have := hotGet_hc st1 (env.repo, sha, kind, name) hc1; rwa [hgB] at this
            have hcB1 : hotConsistent ({ warm := stB.warm, hot := stB.hot, extractions := stB.extractions + 1 } : CState) :=
              fun k2 v2 h2 => hcB k2 v2 h2
            have hsim := lookupGo_sim env name kind rest st1
              { warm := stB.warm, hot := stB.hot, extractions := stB.extractions + 1 }
              hc1 hcB1 (by show stB.warm = st1.warm; exact hwB)
            rcases res with e | r0
            · have hstable := lookupGo_stable env name kind rest _ _ _ h
                (fun r hr => by exact Except.noConfusion hr)
              have hw1 : st1.warm = st.warm := by
                rw [hstable.1]
                show stA.warm = st.warm
                exact hwA
              have hnB : cachedB = none := by rw [hcb, hw1]; exact hv0
              subst hnB
              simp only [lookupGo, hb, hgB, hf, hx]
              rw [hsim.1]
              exact hIH
            · rcases r0 with _ | r
              · have hstable := lookupGo_stable env name kind rest _ _ _ h
                  (fun r hr => by
                    injection hr with hr2
                    exact Option.noConfusion hr2)
                have hw1 : st1.warm = st.warm := by
                  rw [hstable.1]
                  show stA.warm = st.warm
                  exact hwA
                have hnB : cachedB = none := by rw [hcb, hw1]; exact hv0
                subst hnB
                simp only [lookupGo, hb, hgB, hf, hx]
                rw [hsim.1]
                exact hIH
              · obtain ⟨kS, hk1, hk2⟩ := lookupGo_success env name kind rest _ _ _ hcA1 h
                by_cases hkk : (env.repo, sha, kind, name) = kS
                · have hsB : cachedB = some r := by
                    rw [hcb, hkk]
                    exact hk1
                  subst hsB
                  simp [lookupGo, hb, hgB]
                · have hnB : cachedB = none := by
                    rw [hcb, hk2 _ hkk]
                    show assocFind stA.warm (env.repo, sha, kind, name) = none
                    rw [hwA]
                    exact hv0
                  subst hnB
                  simp only [lookupGo, hb, hgB, hf, hx]
                  rw [hsim.1]
                  exact hIH

/-- Lookup preserves hot/warm consistency. -/
theorem _lookup_hc (env : GitEnv) (st : CState) (name kind : String)
    (hc : hotConsistent st) : hotConsistent (_lookup env st name kind).2 := by
  unfold _lookup
  by_cases hk : _KINDS.contains kind
  · rw [if_pos hk]
    cases hg : _grep_candidates env name kind with
    | error e => exact hc
    | ok cands => exact lookupGo_hc env name kind cands st hc
  · rw [if_neg hk]
    exact hc

/-- Claim C5 theorem.  See the doc comment at `c5_lookup_idempotent`. -/
theorem _lookup_idem (env : GitEnv) (st : CState) (name kind : String)
    (res : Except Unit (Option SymRec)) (st1 : CState)
    (hc : hotConsistent st) (h : _lookup env st name kind = (res, st1)) :
    (_lookup env st1 name kind).1 = res := by
  unfold _lookup at h ⊢
  by_cases hk : _KINDS.contains kind
  · rw [if_pos hk] at h ⊢
    cases hg : _grep_candidates env name kind with
    | error e =>
      rw [hg] at h
      have h1 : (Except.error e : Except Unit (Option SymRec)) = res := congrArg Prod.fst h
      exact h1
    | ok cands =>
      rw [hg] at h
      exact lookupGo_idem env name kind cands st res st1 hc h
  · rw [if_neg hk] at h ⊢
    exact congrArg Prod.fst h

/-- A small repository world: one header `a.h` holding one macro
definition, strict grep finding it. -/
def envDemo : GitEnv :=
  { repo := "R"
  , grepStrictLines := fun _ _ => ["c:a.h:1:#define W 1"]
  , grepNameLines := fun _ => []
  , blobSha := fun p => if p = "a.h" then .ok "s1" else .error ()
  , catFile := fun s => if s = "s1" then .ok "#define W 1" else .error ()
  , parse := fun _ _ => .node "translation_unit" 0 0 0 "" [] }

/-- The record `lookup("W", macro)` yields in `envDemo`. -/
def recDemo : SymRec := { code := "#define W 1", file := "R/a.h", line := 0 }

/-- The state after that lookup from `st0`. -/
def stDemo : CState :=
  { warm := [(("R", "s1", "macro", "W"), recDemo)], hot := [], extractions := 1 }

example : _lookup envDemo st0 "W" "macro" = (.ok (some recDemo), stDemo) := by rfl

/-- Claim C5: lookup is deterministic — for a fixed repository, commit,
candidate list and file contents (one pure `GitEnv`), a repeated call
of `_lookup(name, kind)` from the state the first call produced
returns the byte-identical result (same SymbolRecord, or the same
NOT_FOUND/error outcome); the hypothesis is that the hot memo agrees
with the warm store, which holds for every state the backend itself
produces. -/
theorem c5_lookup_deterministic (env : GitEnv) (st : CState) (name kind : String)
    (res : Except Unit (Option SymRec)) (st1 : CState)
    (hc : hotConsistent st) (h : _lookup env st name kind = (res, st1)) :
    (_lookup env st1 name kind).1 = res :=
  _lookup_idem env st name kind res st1 hc h

/-- Witness for C5 at a concrete repository: the second lookup of
`("W", macro)` returns the record the first one returned. -/
theorem c5_lookup_deterministic_witness :
    (_lookup envDemo stDemo "W" "macro").1 = .ok (some recDemo) :=
  c5_lookup_deterministic envDemo st0 "W" "macro" (.ok (some recDemo)) stDemo
    hotConsistent_st0 (by rfl)

/-- Claim C8: for a kind outside the six recognized kinds, `_lookup`
returns NOT_FOUND (`None`) immediately with a completely unchanged
state, for every environment — so no repository search, hash
resolution, extraction or cache access can have happened, and no
exception is raised. -/
theorem c8_unsupported_kind (env : GitEnv) (st : CState) (name kind : String)
    (h : _KINDS.contains kind = false) :
    _lookup env st name kind = (.ok none, st) := by
  unfold _lookup
  rw [h]
  rfl

/-- Witness for C8: kind `"class"` is not recognized and resolves to
NOT_FOUND with untouched state. -/
theorem c8_unsupported_kind_witness :
    _KINDS.contains "class" = false ∧
    _lookup envDemo st0 "ptr" "class" = (.ok none, st0) :=
  ⟨by decide, c8_unsupported_kind envDemo st0 "ptr" "class" (by decide)⟩

/-- Claim C9: negative outcomes are never persisted — a lookup that
returns NOT_FOUND leaves the warm store unchanged, does not clear the
hot tier (every memo entry survives), and a repeated lookup of the
missing symbol re-runs the full locate-and-extract work: it again
returns NOT_FOUND and performs exactly as many extraction passes as
the first run did (nothing is served from a negative cache row). -/
theorem c9_not_found_not_persisted (env : GitEnv) (st : CState) (name kind : String)
    (st1 : CState) (hc : hotConsistent st)
    (h : _lookup env st name kind = (.ok none, st1)) :
    st1.warm = st.warm ∧
    (∀ k v, assocFind st.hot k = some v → assocFind st1.hot k = some v) ∧
    (_lookup env st1 name kind).1 = .ok none ∧
    (_lookup env st1 name kind).2.extractions + st.extractions
      = st1.extractions + st1.extractions := by
  unfold _lookup at h ⊢
  by_cases hk : _KINDS.contains kind
  · rw [if_pos hk] at h ⊢
    cases hg : _grep_candidates env name kind with
    | error e =>
      rw [hg] at h
      exact Except.noConfusion (congrArg Prod.fst h)
    | ok cands =>
      rw [hg] at h
      have hq : lookupGo env name kind cands st = (.ok none, st1) := h
      have hstable := lookupGo_stable env name kind cands st _ _ hq
        (fun r hr => by
          injection hr with hr2
          exact Option.noConfusion hr2)
      have hc1 : hotConsistent st1 := by
        have := lookupGo_hc env name kind cands st hc
        rwa [hq] at this
      have hsim := lookupGo_sim env name kind cands st st1 hc hc1 hstable.1
      have hidem := lookupGo_idem env name kind cands st _ st1 hc hq
      refine ⟨hstable.1, hstable.2, hidem, ?_⟩
      have e1 := hsim.2.2
      rw [hq] at e1
      exact e1
  · rw [if_neg hk] at h ⊢
    have h2 : st = st1 := congrArg Prod.snd h
    subst h2
    exact ⟨rfl, fun k v hv => hv, rfl, rfl⟩

/-- A repository world in which the requested macro does not exist:
the strict grep produced a (false-positive) candidate whose extraction
fails. -/
def envMiss : GitEnv :=
  { repo := "R"
  , grepStrictLines := fun _ _ => ["c:a.h:1:zz"]
  , grepNameLines := fun _ => []
  , blobSha := fun p => if p = "a.h" then .ok "s1" else .error ()
  , catFile := fun s => if s = "s1" then .ok "int y;" else .error ()
  , parse := fun _ _ => .node "translation_unit" 0 0 0 "" [] }

/-- The state after `lookup("M9", macro)` misses in `envMiss`: no warm
row, one memoised negative hot entry, one extraction attempted. -/
def stMiss : CState :=
  { warm := [], hot := [(("R", "s1", "macro", "M9"), none)], extractions := 1 }

example : _lookup envMiss st0 "M9" "macro" = (.ok none, stMiss) := by rfl

/-- Witness for C9: a concrete NOT_FOUND lookup persists nothing and a
rerun does the same single extraction pass again. -/
theorem c9_not_found_not_persisted_witness :
    stMiss.warm = st0.warm ∧
    (_lookup envMiss stMiss "M9" "macro").1 = .ok none ∧
    (_lookup envMiss stMiss "M9" "macro").2.extractions + st0.extractions
      = stMiss.extractions + stMiss.extractions :=
  ⟨(c9_not_found_not_persisted envMiss st0 "M9" "macro" stMiss
      hotConsistent_st0 (by rfl)).1,
   (c9_not_found_not_persisted envMiss st0 "M9" "macro" stMiss
      hotConsistent_st0 (by rfl)).2.2.1,
   (c9_not_found_not_persisted envMiss st0 "M9" "macro" stMiss
      hotConsistent_st0 (by rfl)).2.2.2⟩

/-- Claim C4: content addressing — if a first lookup returned record
`r` and stored it under content hash `s` (shared warm store `st1`,
consistent hot memo), then a second lookup against another commit or
resolver with the same repository identity whose first candidate file
resolves to the same content hash `s` is served from the cache: it
returns the identical SymbolRecord, performs no further extraction
work, and leaves the warm store unchanged. -/
theorem c4_content_addressed_cache (env1 env2 : GitEnv) (st : CState) (name kind : String)
    (r : SymRec) (st1 : CState) (s f2 : String) (ln2 : Int) (rest : List (String × Int))
    (hrepo : env2.repo = env1.repo)
    (hc : hotConsistent st)
    (h1 : _lookup env1 st name kind = (.ok (some r), st1))
    (h2 : assocFind st1.warm (env1.repo, s, kind, name) = some r)
    (h3 : _grep_candidates env2 name kind = .ok ((f2, ln2) :: rest))
    (h4 : env2.blobSha f2 = .ok s)
    (hk : _KINDS.contains kind = true) :
    (_lookup env2 st1 name kind).1 = .ok (some r) ∧
    (_lookup env2 st1 name kind).2.extractions = st1.extractions ∧
    (_lookup env2 st1 name kind).2.warm = st1.warm := by
  have hc1 : hotConsistent st1 := by
    have := _lookup_hc env1 st name kind hc
    rwa [h1] at this
  rcases hgB : hotGet st1 (env2.repo, s, kind, name) with ⟨cachedB, stB⟩
  have hcbB : cachedB = some r := by
    have hq := hotGet_fst st1 (env2.repo, s, kind, name) hc1
    rw [hgB] at hq
    simp only at hq
    rw [hq]
    show assocFind st1.warm (env2.repo, s, kind, name) = some r
    rw [hrepo]
    exact h2
  subst hcbB
  have hwB : stB.warm = st1.warm := by
    have := hotGet_warm st1 (env2.repo, s, kind, name); rwa [hgB] at this
  have heB : stB.extractions = st1.extractions := by
    have := hotGet_extr st1 (env2.repo, s, kind, name); rwa [hgB] at this
  have hval : _lookup env2 st1 name kind = (.ok (some r), stB) := by
    unfold _lookup
    rw [hk, h3]
    simp only [lookupGo, h4, hgB]
    rfl
  rw [hval]
  exact ⟨rfl, heB, hwB⟩

/-- Commit 1 of repository `R4`: `a.h` contains `#define P 2`. -/
def env4a : GitEnv :=
  { repo := "R4"
  , grepStrictLines := fun _ _ => ["c1:a.h:1:#define P 2"]
  , grepNameLines := fun _ => []
  , blobSha := fun p => if p = "a.h" then .ok "sh" else .error ()
  , catFile := fun s => if s = "sh" then .ok "#define P 2" else .error ()
  , parse := fun _ _ => .node "translation_unit" 0 0 0 "" [] }

/-- Commit 2 of repository `R4`: `a.h` is byte-identical (same blob
hash `sh`), so the strict grep hit differs only in the commit field. -/
def env4b : GitEnv :=
  { repo := "R4"
  , grepStrictLines := fun _ _ => ["c2:a.h:1:#define P 2"]
  , grepNameLines := fun _ => []
  , blobSha := fun p => if p = "a.h" then .ok "sh" else .error ()
  , catFile := fun s => if s = "sh" then .ok "#define P 2" else .error ()
  , parse := fun _ _ => .node "translation_unit" 0 0 0 "" [] }

def rec4 : SymRec := { code := "#define P 2", file := "R4/a.h", line := 0 }

def st4 : CState :=
  { warm := [(("R4", "sh", "macro", "P"), rec4)], hot := [], extractions := 1 }

/-- Witness for C4: a cold lookup at commit 1 extracts once; the
lookup at commit 2 returns the identical record with no further
extraction. -/
theorem c4_content_addressed_cache_witness :
    _lookup env4a st0 "P" "macro" = (.ok (some rec4), st4) ∧
    st4.extractions = 1 ∧
    (_lookup env4b st4 "P" "macro").1 = .ok (some rec4) ∧
    (_lookup env4b st4 "P" "macro").2.extractions = st4.extractions :=
  ⟨by rfl, by rfl,
   (c4_content_addressed_cache env4a env4b st0 "P" "macro" rec4 st4 "sh" "a.h" 0 []
      (by rfl) hotConsistent_st0 (by rfl) (by rfl) (by rfl) (by rfl) (by decide)).1,
   (c4_content_addressed_cache env4a env4b st0 "P" "macro" rec4 st4 "sh" "a.h" 0 []
      (by rfl) hotConsistent_st0 (by rfl) (by rfl) (by rfl) (by rfl) (by decide)).2.1⟩

/-- Repository `RX` seen by a resolver whose grep lists `b.h` (one of
two byte-identical files). -/
def env10a : GitEnv :=
  { repo := "RX"
  , grepStrictLines := fun _ _ => ["c:b.h:1:#define M 1"]
  , grepNameLines := fun _ => []
  , blobSha := fun p => if p = "b.h" then .ok "s" else if p = "a.h" then .ok "s" else .error ()
  , catFile := fun s => if s = "s" then .ok "#define M 1" else .error ()
  , parse := fun _ _ => .node "translation_unit" 0 0 0 "" [] }

/-- The same repository seen by a resolver (same warm store) whose
grep lists the other byte-identical path `a.h`. -/
def env10b : GitEnv :=
  { repo := "RX"
  , grepStrictLines := fun _ _ => ["c:a.h:1:#define M 1"]
  , grepNameLines := fun _ => []
  , blobSha := fun p => if p = "b.h" then .ok "s" else if p = "a.h" then .ok "s" else .error ()
  , catFile := fun s => if s = "s" then .ok "#define M 1" else .error ()
  , parse := fun _ _ => .node "translation_unit" 0 0 0 "" [] }

def rec10 : SymRec := { code := "#define M 1", file := "RX/b.h", line := 0 }

def st10 : CState :=
  { warm := [(("RX", "s", "macro", "M"), rec10)], hot := [], extractions := 1 }

/-- Claim C10: the cache key omits the file path, so when two distinct
paths (`a.h`, `b.h`) have byte-identical content, a lookup whose
current (and only) candidate is `a.h` is served the cached record that
names `b.h` — the path under which the record was first extracted. -/
theorem c10_cache_key_omits_path :
    _lookup env10a st0 "M" "macro" = (.ok (some rec10), st10) ∧
    _grep_candidates env10b "M" "macro" = .ok [("a.h", 0)] ∧
    (_lookup env10b st10 "M" "macro").1 = .ok (some rec10) ∧
    rec10.file = "RX/b.h" ∧ ¬ rec10.file = "RX/a.h" :=
  ⟨by rfl, by rfl, by rfl, by rfl, by decide⟩

/-- Repository `R1` where the strict grep reports two candidates but
the first one's hash resolution fails (`git rev-parse` exits
non-zero), while the second would extract fine. -/
def env1a : GitEnv :=
  { repo := "R1"
  , grepStrictLines := fun _ _ => ["c:gone.c:3:#define E 1", "c:ok.h:1:#define E 1"]
  , grepNameLines := fun _ => []
  , blobSha := fun p => if p = "ok.h" then .ok "sE" else .error ()
  , catFile := fun s => if s = "sE" then .ok "#define E 1" else .error ()
  , parse := fun _ _ => .node "translation_unit" 0 0 0 "" [] }

/-- The same repository with only the good candidate reported. -/
def env1b : GitEnv :=
  { repo := "R1"
  , grepStrictLines := fun _ _ => ["c:ok.h:1:#define E 1"]
  , grepNameLines := fun _ => []
  , blobSha := fun p => if p = "ok.h" then .ok "sE" else .error ()
  , catFile := fun s => if s = "sE" then .ok "#define E 1" else .error ()
  , parse := fun _ _ => .node "translation_unit" 0 0 0 "" [] }

def rec1 : SymRec := { code := "#define E 1", file := "R1/ok.h", line := 0 }

def st1e : CState :=
  { warm := [(("R1", "sE", "macro", "E"), rec1)], hot := [], extractions := 1 }

/-- Counterexample to claim C1 as stated: a hash-resolution failure on
the first candidate is NOT treated as that candidate's extraction
failing — `_lookup` raises (returns `.error`), and the second
candidate, which alone would have produced a record, is never tried. -/
theorem c1_counterexample :
    _lookup env1a st0 "E" "macro" = (.error (), st0) ∧
    _lookup env1b st0 "E" "macro" = (.ok (some rec1), st1e) :=
  ⟨by rfl, by rfl⟩

/-- Amended claim C1: there is no try/except in `_lookup`, so a
`CalledProcessError` from hash resolution (`_blob_sha`) or byte fetch
(`_git_show`) on the current candidate propagates out of the lookup as
an exception; the remaining candidates are not tried and no recovery
happens. -/
theorem c1_error_propagates (env : GitEnv) (st : CState) (name kind f : String)
    (ln : Int) (rest : List (String × Int)) (sha : String)
    (hk : _KINDS.contains kind = true)
    (hcand : _grep_candidates env name kind = .ok ((f, ln) :: rest)) :
    (env.blobSha f = .error () → _lookup env st name kind = (.error (), st)) ∧
    (env.blobSha f = .ok sha →
     assocFind st.hot (env.repo, sha, kind, name) = none →
     assocFind st.warm (env.repo, sha, kind, name) = none →
     env.catFile sha = .error () →
     _lookup env st name kind =
       (.error (), { st with hot := ((env.repo, sha, kind, name), none) :: st.hot })) := by
  constructor
  · intro hbe
    unfold _lookup
    rw [hk, hcand]
    simp only [lookupGo, hbe]
    simp
  · intro hb hhot hwarm hcf
    unfold _lookup
    rw [hk, hcand]
    have hg : hotGet st (env.repo, sha, kind, name) =
        (none, { st with hot := ((env.repo, sha, kind, name), none) :: st.hot }) := by
      unfold hotGet
      rw [hhot]
      show (_warm_get st (env.repo, sha, kind, name), _) = _
      rw [show _warm_get st (env.repo, sha, kind, name) = none from hwarm]
    simp only [lookupGo, hb, hg, hcf]
    simp

/-- Witness for the amended C1 at the concrete repository `R1`. -/
theorem c1_error_propagates_witness :
    env1a.blobSha "gone.c" = .error () ∧
    _lookup env1a st0 "E" "macro" = (.error (), st0) :=
  ⟨by rfl,
   (c1_error_propagates env1a st0 "E" "macro" "gone.c" 2 [("ok.h", 0)] "s0"
      (by decide) (by rfl)).1 (by rfl)⟩

/-- Source of `def.c` in repository `R2`: a comment line, then a real
function definition of `foo` on line 1. -/
def src2 : String := "// x\nvoid foo(void) \x7b \x7d\n"

/-- The tree-sitter parse of `src2`. -/
def fdef2 : TSNode :=
  .node "function_definition" 1 5 23 "void foo(void) \x7b \x7d"
    [ .node "primitive_type" 1 5 9 "void" []
    , .node "function_declarator" 1 10 19 "foo(void)"
        [ .node "identifier" 1 10 13 "foo" []
        , .node "parameter_list" 1 13 19 "(void)" [] ]
    , .node "compound_statement" 1 20 23 "\x7b \x7d" [] ]

def treeC2 : TSNode :=
  .node "translation_unit" 0 0 24 "" [ .node "comment" 0 0 4 "// x" [], fdef2 ]

/-- Repository `R2`: the strict function pattern finds nothing (say
the definition is formatted in a way the pattern misses), the broad
name search returns `def.c`, and `def.c` genuinely defines `foo`. -/
def envC2 : GitEnv :=
  { repo := "R2"
  , grepStrictLines := fun _ _ => []
  , grepNameLines := fun _ => ["c:def.c"]
  , blobSha := fun p => if p = "def.c" then .ok "s2" else .error ()
  , catFile := fun s => if s = "s2" then .ok src2 else .error ()
  , parse := fun _ _ => treeC2 }

/-- Claim C2 evaluated at its failing input: the strict search is
empty, so the fallback produces `def.c` with `line_hint = 0`; the file
genuinely defines `foo` (the extractor itself verifies it when seeded
with the definition's true line 1), yet the lookup returns NOT_FOUND —
with hint 0 the seed is the tree root and the match search climbs only
ancestors, so the fallback can never structurally verify anything. -/
theorem c2_fallback_never_verifies_structural :
    envC2.grepStrictLines "foo" "function" = [] ∧
    _grep_candidates envC2 "foo" "function" = .ok [("def.c", 0)] ∧
    _find_function treeC2 "foo" 1 = some fdef2 ∧
    _lookup envC2 st0 "foo" "function" =
      (.ok none,
       { warm := [], hot := [(("R2", "s2", "function", "foo"), none)], extractions := 1 }) :=
  ⟨by rfl, by rfl, by rfl, by rfl⟩

/-- Source of `bar.c` in the C3 scenario: two non-code lines, then a
definition of `bar` on line 2. -/
def decl3 : TSNode :=
  .node "function_declarator" 2 10 19 "bar(void)"
    [ .node "identifier" 2 10 13 "bar" []
    , .node "parameter_list" 2 13 19 "(void)" [] ]

def fdef3 : TSNode :=
  .node "function_definition" 2 6 28 "int bar(void) \x7b \x7d"
    [ .node "primitive_type" 2 6 9 "int" []
    , decl3
    , .node "compound_statement" 2 25 28 "\x7b \x7d" [] ]

def treeC3 : TSNode :=
  .node "translation_unit" 0 0 30 "" [ .node "comment" 0 0 4 "// a" [], fdef3 ]

/-- Claim C3 evaluated at its failing input: with hint 0 the seed is
the tree root, but from the root the search climbs only ancestors, so
the definition of `bar` on line 2 — reachable with the true hint — is
not found; moreover the node returned for hint 2 is the
`function_definition`, although its `function_declarator` child also
starts at line 2 and is strictly smaller, so the seed is not the
smallest node at that line. -/
theorem c3_root_seed_reaches_nothing :
    _node_at_line treeC3 0 = some (treeC3, []) ∧
    _find_function treeC3 "bar" 2 = some fdef3 ∧
    _find_function treeC3 "bar" 0 = none ∧
    _node_at_line treeC3 2 = some (fdef3, [treeC3]) ∧
    fdef3.children.any
      (fun c => c.startLine = 2 && c.endByte - c.startByte < fdef3.endByte - fdef3.startByte)
      = true :=
  ⟨by rfl, by rfl, by rfl, by rfl, by decide⟩

/-- The `re.search` scan returns an anchored match, and the least one:
every earlier line start fails to match. -/
theorem searchDefineFrom_spec (src name : List Char) :
    ∀ (fuel p s e : Nat), searchDefineFrom src name fuel p = some (s, e) →
      p ≤ s ∧ isLineStart src s = true ∧ matchDefineAt src name s = some e ∧
      ∀ q, p ≤ q → q < s → isLineStart src q = true → matchDefineAt src name q = none := by
  intro fuel
  induction fuel with
  | zero =>
    intro p s e h
    exact Option.noConfusion h
  | succ n ih =>
    intro p s e h
    simp only [searchDefineFrom] at h
    by_cases hlen : src.length < p
    · rw [if_pos hlen] at h
      exact Option.noConfusion h
    · rw [if_neg hlen] at h
      by_cases hls : isLineStart src p = true
      · rw [if_pos hls] at h
        cases hm : matchDefineAt src name p with
        | some e0 =>
          rw [hm] at h
          injection h with h1
          have hp1 : p = s := congrArg Prod.fst h1
          have he1 : e0 = e := congrArg Prod.snd h1
          subst hp1
          subst he1
          exact ⟨Nat.le_refl _, hls, hm,
            fun q hq1 hq2 _ => absurd (Nat.lt_of_le_of_lt hq1 hq2) (Nat.lt_irrefl _)⟩
        | none =>
          rw [hm] at h
          obtain ⟨h1, h2, h3, h4⟩ := ih (p + 1) s e h
          refine ⟨Nat.le_trans (Nat.le_succ p) h1, h2, h3, ?_⟩
          intro q hq1 hq2 hq3
          rcases Nat.eq_or_lt_of_le hq1 with heq | hlt
          · rw [← heq]
            exact hm
          · exact h4 q hlt hq2 hq3
      · rw [if_neg hls] at h
        obtain ⟨h1, h2, h3, h4⟩ := ih (p + 1) s e h
        refine ⟨Nat.le_trans (Nat.le_succ p) h1, h2, h3, ?_⟩
        intro q hq1 hq2 hq3
        rcases Nat.eq_or_lt_of_le hq1 with heq | hlt
        · exact absurd (heq ▸ hq3) hls
        · exact h4 q hlt hq2 hq3

/-- Counterexample to claim C6 as stated: in `"\n#define M 1"` the
`#define` sits on line 1 (the `#` is at index 1, preceded by one
newline), but the leading `\s*` of the pattern spans the newline, so
the match starts at index 0: the recorded line is 0, not the line of
the `#define`, and the code slice is not a trimmed line — it keeps
the leading newline. -/
theorem c6_counterexample :
    extractDefine "R" "f.h" "\n#define M 1".toList "M".toList =
      some { code := "\n#define M 1", file := "R/f.h", line := 0 } ∧
    List.get? "\n#define M 1".toList 1 = some '#' ∧
    countNL (List.take 1 "\n#define M 1".toList) = 1 := by
  refine ⟨by decide, by decide, by decide⟩

/-- Amended claim C6: for every source and name, when the macro search
succeeds with span `(s, e)`, extraction returns the record built from
that span; `s` is the first line-anchored position where the pattern
matches (all earlier line starts fail); the record's code is the
matched text right-stripped (the match may begin with whitespace from
earlier blank lines, since `\s` spans newlines); and the record's line
is the count of newlines before the match START — which equals the
line of the `#define` itself only when the match starts on that line. -/
theorem c6_define_first_match (repo path : String) (src name : List Char) (s e : Nat)
    (h : searchDefine src name = some (s, e)) :
    extractDefine repo path src name = some (_build_rec repo path src s e) ∧
    isLineStart src s = true ∧
    matchDefineAt src name s = some e ∧
    (∀ q, q < s → isLineStart src q = true → matchDefineAt src name q = none) ∧
    (_build_rec repo path src s e).code = String.mk (rstrip (sliceStr src s e)) ∧
    (_build_rec repo path src s e).line = countNL (src.take s) := by
  obtain ⟨_, h2, h3, h4⟩ := searchDefineFrom_spec src name (src.length + 1) 0 s e h
  refine ⟨?_, h2, h3, fun q hq => h4 q (Nat.zero_le q) hq, rfl, rfl⟩
  unfold extractDefine
  rw [h]
  rfl

/-- Witness for the amended C6: in `"x\n#define Q 1"` the first (and
only) anchored match starts at index 2, on the `#define` line. -/
theorem c6_define_first_match_witness :
    extractDefine "R" "m.h" "x\n#define Q 1".toList "Q".toList =
      some (_build_rec "R" "m.h" "x\n#define Q 1".toList 2 13) ∧
    isLineStart "x\n#define Q 1".toList 2 = true :=
  ⟨(c6_define_first_match "R" "m.h" "x\n#define Q 1".toList "Q".toList 2 13 (by rfl)).1,
   (c6_define_first_match "R" "m.h" "x\n#define Q 1".toList "Q".toList 2 13 (by rfl)).2.1⟩

/-- Lemma: `firstWithName` really is the first-match filter of the Python
loop: it splits the match list at the first entry carrying the
requested name. -/
theorem firstWithName_spec (name : List Char) :
    ∀ (ms : List (Nat × Nat × List Char)) (s e : Nat),
      firstWithName ms name = some (s, e) →
      ∃ pre post, ms = pre ++ (s, e, name) :: post ∧ ∀ m ∈ pre, ¬ m.2.2 = name := by
  intro ms
  induction ms with
  | nil =>
    intro s e h
    exact Option.noConfusion h
  | cons m tl ih =>
    intro s e h
    rcases m with ⟨s0, e0, nm0⟩
    simp only [firstWithName] at h
    by_cases hnm : nm0 = name
    · subst hnm
      rw [if_pos rfl] at h
      injection h with h1
      have hs : s0 = s := congrArg Prod.fst h1
      have he : e0 = e := congrArg Prod.snd h1
      subst hs
      subst he
      exact ⟨[], tl, rfl, by simp⟩
    · rw [if_neg hnm] at h
      obtain ⟨pre, post, h1, h2⟩ := ih s e h
      refine ⟨(s0, e0, nm0) :: pre, post, by rw [h1]; rfl, ?_⟩
      intro m hm
      rcases List.mem_cons.mp hm with hh | ht
      · rw [hh]
        exact hnm
      · exact h2 m ht

/-- Every entry the finditer loop emits is an anchored match of the
global pattern at its recorded position. -/
theorem findIterGlobalAux_sound (src : List Char) :
    ∀ (fuel pos s e : Nat) (nm : List Char),
      (s, e, nm) ∈ findIterGlobalAux src fuel pos →
      isLineStart src s = true ∧ matchGlobalAt src s = some (e, nm) := by
  intro fuel
  induction fuel with
  | zero =>
    intro pos s e nm h
    simp [findIterGlobalAux] at h
  | succ n ih =>
    intro pos s e nm h
    simp only [findIterGlobalAux] at h
    by_cases hlen : src.length < pos
    · rw [if_pos hlen] at h
      simp at h
    · rw [if_neg hlen] at h
      by_cases hls : isLineStart src pos = true
      · rw [if_pos hls] at h
        cases hm : matchGlobalAt src pos with
        | some pr =>
          rcases pr with ⟨e0, nm0⟩
          rw [hm] at h
          rcases List.mem_cons.mp h with hh | ht
          · have hs : s = pos := congrArg Prod.fst hh
            have he : e = e0 := congrArg (fun t => t.2.1) hh
            have hn : nm = nm0 := congrArg (fun t => t.2.2) hh
            subst hs
            subst he
            subst hn
            exact ⟨hls, hm⟩
          · exact ih e0 s e nm ht
        | none =>
          rw [hm] at h
          exact ih (pos + 1) s e nm h
      · rw [if_neg hls] at h
        exact ih (pos + 1) s e nm h

/-- Counterexample to claim C7 as stated: `RGX_GLOBAL`'s token class
`[\w\s\*]` contains no brackets, so the global array declaration
`int buf[10];` is NOT matched (the claim says it is), while the
bracket-free `int buf;` is. -/
theorem c7_counterexample :
    extractGlobalVar "R" "g.c" "int buf[10];".toList "buf".toList = none ∧
    extractGlobalVar "R" "g.c" "int buf;".toList "buf".toList =
      some { code := "int buf;", file := "R/g.c", line := 0 } := by
  refine ⟨by decide, by decide⟩

/-- Amended claim C7: global extraction scans the non-overlapping
matches of the declaration regex in order and returns, for the first
match whose captured identifier equals the requested name exactly, the
record built from that match's span (the matched text ends at the
`=`/`;`/`{` character and is right-stripped; the line is the newline
count before the match start, as for macros).  The token run admits no
brackets, so a global array declaration such as `int buf[10];` yields
no match. -/
theorem c7_global_first_match (repo path : String) (src name : List Char) (s e : Nat)
    (h : firstWithName (findIterGlobal src) name = some (s, e)) :
    extractGlobalVar repo path src name = some (_build_rec repo path src s e) ∧
    isLineStart src s = true ∧
    matchGlobalAt src s = some (e, name) ∧
    (∃ pre post, findIterGlobal src = pre ++ (s, e, name) :: post ∧
      ∀ m ∈ pre, ¬ m.2.2 = name) ∧
    (_build_rec repo path src s e).code = String.mk (rstrip (sliceStr src s e)) ∧
    (_build_rec repo path src s e).line = countNL (src.take s) ∧
    extractGlobalVar repo path "int buf[10];".toList "buf".toList = none := by
  obtain ⟨pre, post, h1, h2⟩ := firstWithName_spec name (findIterGlobal src) s e h
  have hmem : (s, e, name) ∈ findIterGlobal src := by
    rw [h1]
    exact List.mem_append_right pre (List.mem_cons_self _ _)
  obtain ⟨h3, h4⟩ := findIterGlobalAux_sound src (src.length + 2) 0 s e name hmem
  refine ⟨?_, h3, h4, ⟨pre, post, h1, h2⟩, rfl, rfl, ?_⟩
  · unfold extractGlobalVar
    rw [h]
    rfl
  · have hz : firstWithName (findIterGlobal ("int buf[10];".toList)) ("buf".toList) = none := by
      decide
    unfold extractGlobalVar
    rw [hz]
    rfl

/-- Witness for the amended C7: in `"long n = 0;"` the first match
with captured name `n` spans indices 0–8 (through the `=`), and the
array declaration yields no match. -/
theorem c7_global_first_match_witness :
    extractGlobalVar "R" "g.c" "long n = 0;".toList "n".toList =
      some (_build_rec "R" "g.c" "long n = 0;".toList 0 8) ∧
    extractGlobalVar "R" "g.c" "int buf[10];".toList "buf".toList = none :=
  ⟨(c7_global_first_match "R" "g.c" "long n = 0;".toList "n".toList 0 8 (by rfl)).1,
   (c7_global_first_match "R" "g.c" "long n = 0;".toList "n".toList 0 8
      (by rfl)).2.2.2.2.2.2⟩
